import Mathlib

/-!
# Verification of `uncomment_files.py`

A shallow embedding of the repository's single script, `src/uncomment_files.py`,
together with theorems settling the spec's claims about it.

The script walks a directory tree, and for every file whose name ends in
`.tsx` or `.ts` it reads the lines, classifies the file with
`is_fully_commented`, and if the classifier accepts, rewrites every line with
`uncomment_line`, prints `Uncommenting: <path>`, and increments a counter.
At the end it prints `Total files uncommented: <count>`.

Modelling choices:
* A line is a `List Char` (the raw characters of one element of `readlines()`,
  trailing newline included).
* Python's `str.strip()` (with no argument) is modelled by `pyStrip`, which
  removes leading and trailing characters from the ASCII whitespace set that
  `strip` recognises (space, tab, newline, carriage return, vertical tab,
  form feed).
* Python's `s.replace(old, "", 1)` for a non-empty `old` is modelled by
  `replaceFirst`, which deletes the leftmost occurrence of `old`.
* The float comparison `len(commented) / len(non_empty) > 0.95` is embedded
  as the exact rational comparison `95 * len(non_empty) < 100 * len(commented)`
  (cross-multiplication); CPython's correctly rounded double division agrees
  with the exact rational comparison at every line count a file can have.
* The directory walk is modelled as a list of files (`SimFile`): `os.walk`
  yields each regular file exactly once, and the loop body touches one file at
  a time.  `runAux`/`run` mirror the loop, threading the counter and
  collecting the console output as a list of lines.
-/

/-- A raw line of a file, as read by `readlines()` (newline included). -/
abbrev Line := List Char

/-- The ASCII whitespace characters removed by Python's `str.strip()`. -/
def pyIsSpace (c : Char) : Bool :=
  c == ' ' || c == '\t' || c == '\n' || c == '\r' || c == '\x0b' || c == '\x0c'

/-- Python `s.strip()`: drop leading and trailing whitespace. -/
def pyStrip (s : Line) : Line :=
  ((s.dropWhile pyIsSpace).reverse.dropWhile pyIsSpace).reverse

/-- The two-character comment marker `"//"`. -/
def slashSlash : Line := ['/', '/']

/-- The marker followed by a space, `"// "`. -/
def slashSlashSpace : Line := ['/', '/', ' ']

/-- Python `s.replace(pat, "", 1)` for non-empty `pat`: delete the leftmost
occurrence of `pat` in `s`; if `pat` does not occur, return `s` unchanged. -/
def replaceFirst (pat : Line) : Line → Line
  | [] => []
  | c :: cs =>
    if pat.isPrefixOf (c :: cs) then (c :: cs).drop pat.length
    else c :: replaceFirst pat cs

/-- `uncomment_line` from `src/uncomment_files.py` (lines 14-20):
```
def uncomment_line(line):
    if line.strip().startswith("// "):
        return line.replace("// ", "", 1)
    if line.strip().startswith("//"):
        return line.replace("//", "", 1)
    return line
```
-/
def uncomment_line (line : Line) : Line :=
  if slashSlashSpace.isPrefixOf (pyStrip line) then
    replaceFirst slashSlashSpace line
  else if slashSlash.isPrefixOf (pyStrip line) then
    replaceFirst slashSlash line
  else line

/-- The non-empty lines of a file: `[l for l in lines if l.strip()]`. -/
def nonEmptyLines (lines : List Line) : List Line :=
  lines.filter (fun l => !(pyStrip l).isEmpty)

/-- The commented members of the non-empty subset:
`[l for l in non_empty if l.strip().startswith("//")]`. -/
def commentedLines (lines : List Line) : List Line :=
  (nonEmptyLines lines).filter (fun l => slashSlash.isPrefixOf (pyStrip l))

/-- `is_fully_commented` from `src/uncomment_files.py` (lines 6-12):
```
def is_fully_commented(lines):
    non_empty = [l for l in lines if l.strip()]
    if not non_empty:
        return False
    commented = [l for l in non_empty if l.strip().startswith("//")]
    return len(commented) / len(non_empty) > 0.95
```
The final float comparison is embedded as the exact rational inequality
`95 * len(non_empty) < 100 * len(commented)`. -/
def is_fully_commented (lines : List Line) : Bool :=
  let non_empty := nonEmptyLines lines
  if non_empty.isEmpty then false
  else
    let commented := commentedLines lines
    95 * non_empty.length < 100 * commented.length

/-- The per-file content transformation of the main loop: if the file
classifies as fully commented its lines are rewritten, otherwise the content
is left as it is. -/
def processContent (lines : List Line) : List Line :=
  if is_fully_commented lines then lines.map uncomment_line else lines

/-- A file seen by the walk: its path (as joined by `os.path.join`) and its
content as a list of raw lines. -/
structure SimFile where
  name : Line
  content : List Line
deriving DecidableEq

/-- The `".tsx"` extension. -/
def tsxExt : Line := ['.', 't', 's', 'x']

/-- The `".ts"` extension. -/
def tsExt : Line := ['.', 't', 's']

/-- The extension filter of the main loop:
`file.endswith(".tsx") or file.endswith(".ts")`. -/
def isTarget (name : Line) : Bool :=
  tsxExt.isSuffixOf name || tsExt.isSuffixOf name

/-- A file is rewritten by the run iff it passes the extension filter and the
classifier accepts its content. -/
def isQual (f : SimFile) : Bool :=
  isTarget f.name && is_fully_commented f.content

/-- The effect of one loop iteration on one file's stored content. -/
def rewriteOne (f : SimFile) : SimFile :=
  if isQual f then { f with content := f.content.map uncomment_line } else f

/-- Number of files of the walk that qualify (and hence are rewritten). -/
def qualCount (fs : List SimFile) : Nat :=
  (fs.filter isQual).length

/-- The console line `f"Uncommenting: {path}"`. -/
def uncommentingMsg (path : Line) : Line :=
  ("Uncommenting: ").data ++ path

/-- The final console line `f"Total files uncommented: {count}"`. -/
def totalMsg (count : Nat) : Line :=
  ("Total files uncommented: ").data ++ (Nat.repr count).data

/-- The main loop over the files yielded by the walk, threading the counter
`count` and collecting console output; mirrors lines 23-35 of the script. -/
def runAux : List SimFile → Nat → List SimFile × Nat × List Line
  | [], c => ([], c, [])
  | f :: fs, c =>
    if isTarget f.name then
      if is_fully_commented f.content then
        let f2 : SimFile := { f with content := f.content.map uncomment_line }
        let r := runAux fs (c + 1)
        (f2 :: r.1, r.2.1, uncommentingMsg f.name :: r.2.2)
      else
        let r := runAux fs c
        (f :: r.1, r.2.1, r.2.2)
    else
      let r := runAux fs c
      (f :: r.1, r.2.1, r.2.2)

/-- The whole script on a walk: run the loop from `count = 0`, then print the
summary line.  Returns the final file contents, the final counter, and the
console output in order. -/
def run (fs : List SimFile) : List SimFile × Nat × List Line :=
  let r := runAux fs 0
  (r.1, r.2.1, r.2.2 ++ [totalMsg r.2.1])

/-! ## Helper lemmas -/

/-- If the pattern occurs nowhere in `s`, `replaceFirst` returns `s` unchanged. -/
theorem replaceFirst_eq_self (pat s : Line)
    (h : ∀ i < s.length, pat.isPrefixOf (s.drop i) = false) :
    replaceFirst pat s = s := by
  induction s with
  | nil => rfl
  | cons c cs ih =>
    have h0 : pat.isPrefixOf (c :: cs) = false := by
      simpa using h 0 (by simp)
    have ih' : replaceFirst pat cs = cs := by
      refine ih fun i hi => ?_
      have := h (i + 1) (by simp only [List.length_cons]; omega)
      simpa [List.drop_succ_cons] using this
    simp [replaceFirst, h0, ih']

/-- If the pattern first occurs right after the block `a`, `replaceFirst`
deletes exactly that occurrence. -/
theorem replaceFirst_first_occ (pat b : Line) (hne : pat ≠ []) :
    ∀ a : Line, (∀ i < a.length, pat.isPrefixOf ((a ++ pat ++ b).drop i) = false) →
      replaceFirst pat (a ++ pat ++ b) = a ++ b := by
  intro a
  induction a with
  | nil =>
    intro _
    obtain ⟨p, ps, rfl⟩ : ∃ p ps, pat = p :: ps := by
      cases pat with
      | nil => exact absurd rfl hne
      | cons p ps => exact ⟨p, ps, rfl⟩
    have hpre : (p :: ps).isPrefixOf (p :: (ps ++ b)) = true := by
      rw [ List.isPrefixOf_iff_prefix]
      exact ⟨b, by simp⟩
    show replaceFirst (p :: ps) (p :: (ps ++ b)) = b
    simp only [replaceFirst]
    rw [if_pos hpre, ← List.cons_append, List.drop_left]
  | cons x a ih =>
    intro h
    have h0 : pat.isPrefixOf (x :: (a ++ pat ++ b)) = false := by
      simpa using h 0 (by simp)
    have h0' : ¬ pat.isPrefixOf (x :: (a ++ pat ++ b)) = true := by
      rw [h0]
      simp
    have ih' : replaceFirst pat (a ++ pat ++ b) = a ++ b := by
      refine ih fun i hi => ?_
      have := h (i + 1) (by simp only [List.length_cons]; omega)
      simpa [List.drop_succ_cons] using this
    show replaceFirst pat (x :: (a ++ pat ++ b)) = x :: (a ++ b)
    simp only [replaceFirst]
    rw [if_neg h0', ih']

/-- `replaceFirst` never enlarges the list. -/
theorem replaceFirst_length_le (pat s : Line) :
    (replaceFirst pat s).length ≤ s.length := by
  induction s with
  | nil => simp [replaceFirst]
  | cons c cs ih =>
    rw [replaceFirst]
    split
    · rw [List.length_drop]; omega
    · simp only [List.length_cons]; omega

/-- The classifier accepts iff the non-empty subset is non-empty and the exact
rational ratio of commented to non-empty lines exceeds `95 / 100`. -/
theorem is_fully_commented_iff (lines : List Line) :
    is_fully_commented lines = true ↔
      (nonEmptyLines lines ≠ [] ∧
        ((commentedLines lines).length : ℚ) / ((nonEmptyLines lines).length : ℚ) >
          95 / 100) := by
  have hdef : is_fully_commented lines =
      (if (nonEmptyLines lines).isEmpty then false
       else decide (95 * (nonEmptyLines lines).length <
         100 * (commentedLines lines).length)) := rfl
  by_cases h : nonEmptyLines lines = []
  · rw [hdef]
    simp [h]
  · have hpos : 0 < (nonEmptyLines lines).length := List.length_pos.mpr h
    have hbool : (nonEmptyLines lines).isEmpty = false := by
      simpa [List.isEmpty_iff] using h
    rw [hdef, hbool, if_neg (by simp), decide_eq_true_eq, gt_iff_lt,
      div_lt_div_iff₀ (by norm_num) (by exact_mod_cast hpos)]
    constructor
    · intro hlt
      refine ⟨h, ?_⟩
      have hq : (95 : ℚ) * (nonEmptyLines lines).length <
          100 * (commentedLines lines).length := by exact_mod_cast hlt
      linarith
    · rintro ⟨-, hq⟩
      have hq' : (95 : ℚ) * (nonEmptyLines lines).length <
          100 * (commentedLines lines).length := by linarith
      exact_mod_cast hq'

/-- The files component of the main loop: every file is passed through
`rewriteOne` exactly once. -/
theorem runAux_files (fs : List SimFile) (c : Nat) :
    (runAux fs c).1 = fs.map rewriteOne := by
  induction fs generalizing c with
  | nil => simp [runAux]
  | cons f fs ih =>
    cases ht : isTarget f.name with
    | false =>
      have hql : isQual f = false := by simp [isQual, ht]
      simp [runAux, ht, ih, hql, rewriteOne]
    | true =>
      cases hq : is_fully_commented f.content with
      | false =>
        have hql : isQual f = false := by simp [isQual, hq]
        simp [runAux, ht, hq, ih, hql, rewriteOne]
      | true =>
        have hql : isQual f = true := by simp [isQual, ht, hq]
        simp [runAux, ht, hq, ih, hql, rewriteOne]

/-- The counter component of the main loop: it grows by exactly the number of
qualifying files. -/
theorem runAux_count (fs : List SimFile) (c : Nat) :
    (runAux fs c).2.1 = c + qualCount fs := by
  induction fs generalizing c with
  | nil => simp [runAux, qualCount]
  | cons f fs ih =>
    cases ht : isTarget f.name with
    | false =>
      have hql : isQual f = false := by simp [isQual, ht]
      simp [runAux, ht, ih, qualCount, List.filter_cons, hql]
    | true =>
      cases hq : is_fully_commented f.content with
      | false =>
        have hql : isQual f = false := by simp [isQual, hq]
        simp [runAux, ht, hq, ih, qualCount, List.filter_cons, hql]
      | true =>
        have hql : isQual f = true := by simp [isQual, ht, hq]
        have hc : qualCount (f :: fs) = qualCount fs + 1 := by
          simp [qualCount, List.filter_cons, hql]
        simp only [runAux, ht, hq, if_true, ih, hc]
        omega

/-- The console-output component of the main loop: one `Uncommenting` line per
qualifying file, in walk order. -/
theorem runAux_out (fs : List SimFile) (c : Nat) :
    (runAux fs c).2.2 = (fs.filter isQual).map (fun f => uncommentingMsg f.name) := by
  induction fs generalizing c with
  | nil => simp [runAux]
  | cons f fs ih =>
    cases ht : isTarget f.name with
    | false =>
      have hql : isQual f = false := by simp [isQual, ht]
      simp [runAux, ht, ih, List.filter_cons, hql]
    | true =>
      cases hq : is_fully_commented f.content with
      | false =>
        have hql : isQual f = false := by simp [isQual, hq]
        simp [runAux, ht, hq, ih, List.filter_cons, hql]
      | true =>
        have hql : isQual f = true := by simp [isQual, ht, hq]
        simp [runAux, ht, hq, ih, List.filter_cons, hql]

/-- Closed form of the main loop: the files are mapped through `rewriteOne`,
the counter grows by the number of qualifying files, and one console line is
emitted per qualifying file, in walk order. -/
theorem runAux_spec (fs : List SimFile) (c : Nat) :
    runAux fs c = (fs.map rewriteOne, c + qualCount fs,
      (fs.filter isQual).map (fun f => uncommentingMsg f.name)) := by
  rw [← runAux_files fs c, ← runAux_count fs c, ← runAux_out fs c]

/-- If no line of `l`, once passed through `uncomment_line`, still starts
(after stripping) with the marker, the rewritten file has no commented lines. -/
theorem commented_map_nil (l : List Line)
    (h : ∀ line ∈ l, slashSlash.isPrefixOf (pyStrip (uncomment_line line)) = false) :
    commentedLines (l.map uncomment_line) = [] := by
  unfold commentedLines
  rw [List.filter_eq_nil_iff]
  intro a ha
  have ha' : a ∈ l.map uncomment_line := by
    unfold nonEmptyLines at ha
    exact List.mem_of_mem_filter ha
  obtain ⟨line, hline, rfl⟩ := List.mem_map.mp ha'
  simp [h line hline]

/-- Under the same hypothesis, the rewritten file no longer qualifies. -/
theorem is_fully_commented_map_eq_false (l : List Line)
    (h : ∀ line ∈ l, slashSlash.isPrefixOf (pyStrip (uncomment_line line)) = false) :
    is_fully_commented (l.map uncomment_line) = false := by
  have hc := commented_map_nil l h
  unfold is_fully_commented
  cases he : (nonEmptyLines (l.map uncomment_line)).isEmpty with
  | true => simp [he]
  | false => simp [he, hc]

/-! ## Claims -/

/-- C1: a target-extension file is rewritten iff its list of non-empty lines
is non-empty and the ratio of commented to non-empty lines strictly exceeds
`95 / 100`; in particular a file with 19 commented lines out of 20 non-empty
lines (ratio exactly 0.95) is not rewritten, while 20 out of 21 is. -/
theorem rewritten_iff_ratio (name : Line) (content : List Line)
    (ht : isTarget name = true) :
    (isQual ⟨name, content⟩ = true ↔
      (nonEmptyLines content ≠ [] ∧
        ((commentedLines content).length : ℚ) /
          ((nonEmptyLines content).length : ℚ) > 95 / 100)) ∧
    is_fully_commented (List.replicate 19 (("// a\n").data) ++ [("b\n").data]) = false ∧
    is_fully_commented (List.replicate 20 (("// a\n").data) ++ [("b\n").data]) = true := by
  refine ⟨?_, by decide, by decide⟩
  have hq : isQual ⟨name, content⟩ = is_fully_commented content := by
    simp [isQual, ht]
  rw [hq]
  exact is_fully_commented_iff content

/-- Witness for C1 at the file `a.ts` containing the single line `// x`. -/
theorem rewritten_iff_ratio_witness :
    nonEmptyLines [("// x").data] ≠ [] ∧
      ((commentedLines [("// x").data]).length : ℚ) /
        ((nonEmptyLines [("// x").data]).length : ℚ) > 95 / 100 :=
  ((rewritten_iff_ratio (("a.ts").data) [("// x").data] (by decide)).1).mp (by decide)

/-- C2: the per-line transform applies three checks in order with first match
winning (stripped form starting with marker-plus-space, stripped form starting
with the marker alone, otherwise unchanged), and the removal is a plain
first-occurrence substring replace: a pattern occurring nowhere leaves the
line unchanged, and otherwise exactly the leftmost occurrence is deleted. -/
theorem uncomment_line_transform_spec :
    (∀ line : Line,
      (slashSlashSpace.isPrefixOf (pyStrip line) = true →
        uncomment_line line = replaceFirst slashSlashSpace line) ∧
      (slashSlashSpace.isPrefixOf (pyStrip line) = false →
        slashSlash.isPrefixOf (pyStrip line) = true →
        uncomment_line line = replaceFirst slashSlash line) ∧
      (slashSlashSpace.isPrefixOf (pyStrip line) = false →
        slashSlash.isPrefixOf (pyStrip line) = false →
        uncomment_line line = line)) ∧
    (∀ pat s : Line, (∀ i < s.length, pat.isPrefixOf (s.drop i) = false) →
      replaceFirst pat s = s) ∧
    (∀ pat a b : Line, pat ≠ [] →
      (∀ i < a.length, pat.isPrefixOf ((a ++ pat ++ b).drop i) = false) →
      replaceFirst pat (a ++ pat ++ b) = a ++ b) := by
  refine ⟨fun line => ⟨?_, ?_, ?_⟩, replaceFirst_eq_self, ?_⟩
  · intro h1
    simp [uncomment_line, h1]
  · intro h1 h2
    simp [uncomment_line, h1, h2]
  · intro h1 h2
    simp [uncomment_line, h1, h2]
  · intro pat a b hne h
    exact replaceFirst_first_occ pat b hne a h

/-- Witness for C2 on concrete lines covering each of the three checks and
both `replaceFirst` characterisations. -/
theorem uncomment_line_transform_spec_witness :
    uncomment_line (("   // zz").data) = replaceFirst slashSlashSpace (("   // zz").data) ∧
    uncomment_line (("//bar\n").data) = replaceFirst slashSlash (("//bar\n").data) ∧
    uncomment_line (("qux").data) = ("qux").data ∧
    replaceFirst slashSlash (("abc").data) = ("abc").data ∧
    replaceFirst slashSlash (("  ").data ++ slashSlash ++ ("x").data) =
      ("  ").data ++ ("x").data :=
  ⟨(uncomment_line_transform_spec.1 _).1 (by decide),
   (uncomment_line_transform_spec.1 _).2.1 (by decide) (by decide),
   (uncomment_line_transform_spec.1 _).2.2 (by decide) (by decide),
   uncomment_line_transform_spec.2.1 _ _ (by decide),
   uncomment_line_transform_spec.2.2 _ _ _ (by decide) (by decide)⟩

/-- C3 counterexample: the one-line file `// // x` qualifies, yet applying
the classify-then-rewrite process twice differs from applying it once — one
pass leaves the line `// x`, which still qualifies, so the second pass
rewrites again. -/
theorem process_twice_cex :
    is_fully_commented [("// // x").data] = true ∧
      processContent (processContent [("// // x").data]) ≠
        processContent [("// // x").data] := by
  decide

/-- C3 (amended): for every qualifying file in which no line, once passed
through `uncomment_line`, still begins (after stripping) with the marker,
applying the classify-then-rewrite process twice yields the same contents as
applying it once; without that proviso the spec's claim fails (see the
counterexample). -/
theorem process_twice_eq_once (l : List Line)
    (hq : is_fully_commented l = true)
    (h : ∀ line ∈ l, slashSlash.isPrefixOf (pyStrip (uncomment_line line)) = false) :
    processContent (processContent l) = processContent l := by
  have h2 := is_fully_commented_map_eq_false l h
  simp [processContent, hq, h2]

/-- Witness for the amended C3 at the one-line file `// x`. -/
theorem process_twice_eq_once_witness :
    processContent (processContent [("// x\n").data]) =
      processContent [("// x\n").data] :=
  process_twice_eq_once [("// x\n").data] (by decide) (by decide)

/-- C4: a file whose lines all strip to empty is classified not qualified —
the embedding mirrors the source's early exit, taken before any ratio is
formed, so no division on a zero denominator is ever evaluated — the file is
never rewritten, and the counter is unchanged. -/
theorem empty_file_never_rewritten (lines : List Line)
    (h : nonEmptyLines lines = []) :
    is_fully_commented lines = false ∧
    (∀ name : Line, rewriteOne ⟨name, lines⟩ = ⟨name, lines⟩) ∧
    (∀ (name : Line) (c : Nat) (fs : List SimFile),
      (runAux (⟨name, lines⟩ :: fs) c).2.1 = (runAux fs c).2.1) := by
  have hfc : is_fully_commented lines = false := by
    have hdef : is_fully_commented lines =
        (if (nonEmptyLines lines).isEmpty then false
         else decide (95 * (nonEmptyLines lines).length <
           100 * (commentedLines lines).length)) := rfl
    rw [hdef, h]
    simp
  refine ⟨hfc, ?_, ?_⟩
  · intro name
    simp [rewriteOne, isQual, hfc]
  · intro name c fs
    cases ht : isTarget name <;> simp [runAux, ht, hfc]

/-- Witness for C4 at a file of one whitespace-only line and one empty line. -/
theorem empty_file_never_rewritten_witness :
    is_fully_commented [("  \n").data, ("").data] = false ∧
      rewriteOne ⟨("a.ts").data, [("  \n").data, ("").data]⟩ =
        ⟨("a.ts").data, [("  \n").data, ("").data]⟩ :=
  ⟨(empty_file_never_rewritten _ (by decide)).1,
   (empty_file_never_rewritten _ (by decide)).2.1 _⟩

/-- C5: the whole run maps every file through `rewriteOne` exactly once, the
final counter equals the number of qualifying (hence rewritten) files, one
`Uncommenting: <path>` line is emitted per rewritten file in walk order, and
a single final `Total files uncommented: <count>` line reports the counter. -/
theorem run_spec (fs : List SimFile) :
    run fs = (fs.map rewriteOne, qualCount fs,
      (fs.filter isQual).map (fun f => uncommentingMsg f.name) ++
        [totalMsg (qualCount fs)]) := by
  simp only [run, runAux_spec, Nat.zero_add]

/-- C6: a file whose name does not end in a target extension passes through
the loop untouched: its stored content is unchanged and the counter and
console output are exactly those of the rest of the walk — for every content,
so the processing never depends on the content. -/
theorem non_target_untouched (name : Line) (ht : isTarget name = false) :
    ∀ (content : List Line) (c : Nat) (fs : List SimFile),
      runAux (⟨name, content⟩ :: fs) c =
        (⟨name, content⟩ :: (runAux fs c).1, (runAux fs c).2.1, (runAux fs c).2.2) := by
  intro content c fs
  simp [runAux, ht]

/-- Witness for C6 at the file `a.txt` whose content is fully commented. -/
theorem non_target_untouched_witness :
    runAux [⟨("a.txt").data, [("// x").data]⟩] 0 =
      ([⟨("a.txt").data, [("// x").data]⟩], 0, ([] : List Line)) := by
  have h := non_target_untouched (("a.txt").data) (by decide) [("// x").data] 0 []
  simpa [runAux] using h

/-- C7: on the line `"  // foo"` (marker indented) the transform removes the
first occurrence of the marker-plus-space substring and yields `"  foo"`: the
leading whitespace is preserved. -/
theorem indented_marker_line :
    uncomment_line (("  // foo").data) = ("  foo").data := by decide

/-- C8: a line whose whitespace-stripped form is empty is returned unchanged
by the per-line transform. -/
theorem blank_line_unchanged (line : Line) (h : pyStrip line = []) :
    uncomment_line line = line := by
  simp [uncomment_line, h, slashSlashSpace, slashSlash, List.isPrefixOf]

/-- Witness for C8 at the whitespace-only line `" \n"`. -/
theorem blank_line_unchanged_witness :
    uncomment_line ((" \n").data) = (" \n").data :=
  blank_line_unchanged _ (by decide)

/-- C9: the rewrite maps each original line independently to exactly one
output line, so the rewritten content has exactly as many lines as the
original. -/
theorem rewrite_preserves_line_count :
    (∀ lines : List Line, (lines.map uncomment_line).length = lines.length) ∧
    (∀ f : SimFile, (rewriteOne f).content.length = f.content.length) := by
  refine ⟨fun lines => by simp, ?_⟩
  intro f
  cases h : isQual f <;> simp [rewriteOne, h]

/-- C10: the per-line transform never enlarges a line: it only ever deletes
at most one occurrence of the marker (with or without the following space), so
the output length is at most the input length. -/
theorem uncomment_line_length_le (line : Line) :
    (uncomment_line line).length ≤ line.length := by
  unfold uncomment_line
  split
  · exact replaceFirst_length_le _ _
  · split
    · exact replaceFirst_length_le _ _
    · exact le_refl _
